/-
Verification of the `lilac` allocator (repository `lim32`, files
`src/lilac/allocator.rs` and `src/lilac/types.rs`) against its
natural-language specification.

Shallow embedding conventions:
* `u32` values are modelled as `Nat`.  Subtractions that panic in a Rust
  debug build on underflow are modelled with `checkedSub`, and operations
  that can panic return `Option` (`none` = panic).  Atomic counters
  (`Arc<AtomicU32>`) are modelled by a store `refs : List Nat` together
  with an index (`rid`) held by each ledger entry, so that aliasing of one
  shared counter by several ledger entries is represented faithfully.
* `HashMap<Process, Vec<MemRange>>` is modelled as an association list
  with unique keys (`containsKey` / `lookupD` / `entrySet`); every write
  performed by the source goes through `entry(..).or_insert(vec![])`
  followed by in-place mutation, which `entrySet` mirrors.
* Rust ranges are stored by the source with an *inclusive* end offset; the
  structure `URange` keeps that convention (`stop` is the inclusive end,
  named `end` in the source, which is a Lean keyword).
* `Vec::sort_unstable_by` on the free list is modelled by a stable
  insertion sort on the start offsets; the keys are start offsets of
  disjoint blocks, so the sorted result is unique and the model agrees
  with any correct sorting algorithm on the states that arise.
-/
import Mathlib

set_option autoImplicit false

namespace Lilac

/-- Closed byte interval `[start, stop]`, both ends inclusive. The source
stores this as `Range<u32>` whose `end` field is used inclusively. -/
structure URange where
  start : Nat
  stop : Nat
deriving Repr, DecidableEq

/-- Ledger entry: `MemRange { refcount: Arc<AtomicU32>, range: Range<u32> }`.
The `Arc` identity is modelled by `rid`, an index into the allocator's
counter store `refs`; entries sharing one `rid` alias one counter. -/
structure MemRange where
  rid : Nat
  range : URange
deriving Repr, DecidableEq

/-- Error type `AllocError` of `types.rs`. -/
inductive AllocError where
  | AlreadyRegistered
  | NoSuchProcess
  | NotOwned
  | BlockNotFound
deriving Repr, DecidableEq

/-- Outcome type `FreeBlock` of `types.rs`. -/
inductive FreeBlock where
  | Free : Nat → FreeBlock
  | FreeMerge : Nat → FreeBlock
  | RefcountDecreased : FreeBlock
deriving Repr, DecidableEq

/-- Rust `Result<T, AllocError>` (`types.rs` defines `Result<T>`). -/
inductive Res (α : Type) where
  | ok : α → Res α
  | err : AllocError → Res α
deriving Repr, DecidableEq

/-- Allocator state: `heap` arena bytes, `allocated` ledger
(`HashMap<Process, Vec<MemRange>>` as an association list keyed by the
process id, modelled as `Nat`), `free` list of `(capacity, range)` pairs,
and `refs`, the store of shared atomic counters (see `MemRange.rid`). -/
structure Allocator where
  heap : List Nat
  allocated : List (Nat × List MemRange)
  free : List (Nat × URange)
  refs : List Nat
deriving Repr, DecidableEq

/-- Subtraction on `u32` as executed by a Rust debug build: `none` models
the overflow panic. -/
def checkedSub (a b : Nat) : Option Nat :=
  if b ≤ a then some (a - b) else none

/-- `HashMap::contains_key` on the association-list model. -/
def containsKey : List (Nat × List MemRange) → Nat → Bool
  | [], _ => false
  | (k', _) :: rest, k => if k' = k then true else containsKey rest k

/-- Value stored under a key, with default (models reading through
`entry(k).or_insert(vec![])` or an `unwrap` after a `contains_key` check). -/
def lookupD : List (Nat × List MemRange) → Nat → List MemRange → List MemRange
  | [], _, d => d
  | (k', w) :: rest, k, d => if k' = k then w else lookupD rest k d

/-- Store a value under a key: replaces the entry when the key is present,
appends a fresh entry otherwise (write-back of an `entry(..).or_insert`
mutation, and `HashMap::insert` for an absent key). -/
def entrySet : List (Nat × List MemRange) → Nat → List MemRange → List (Nat × List MemRange)
  | [], k, v => [(k, v)]
  | (k', w) :: rest, k, v => if k' = k then (k', v) :: rest else (k', w) :: entrySet rest k v

/-- `iter().enumerate().find(p)`: first element satisfying `p`, with its
index; the counter argument carries the enumeration offset. -/
def enumFind {α : Type} (p : α → Bool) : Nat → List α → Option (Nat × α)
  | _, [] => none
  | i, x :: rest => if p x then some (i, x) else enumFind p (i + 1) rest

/-- `iter().find(p)` without the index. -/
def findFirst {α : Type} (p : α → Bool) : List α → Option α
  | [] => none
  | x :: rest => if p x then some x else findFirst p rest

/-- `Vec::swap_remove i`: overwrite position `i` with the last element and
pop the last element.  Callers only use it at valid indices. -/
def swapRemove {α : Type} (l : List α) (i : Nat) : List α :=
  match l.getLast? with
  | none => l
  | some x => (l.set i x).dropLast

/-- Insertion step for `sortByStart`. -/
def insertSorted (x : Nat × URange) : List (Nat × URange) → List (Nat × URange)
  | [] => [x]
  | y :: rest => if x.2.start ≤ y.2.start then x :: y :: rest else y :: insertSorted x rest

/-- Model of `free.sort_unstable_by(|a, b| a.1.start.cmp(&b.1.start))`:
sort the free list ascending by start offset. -/
def sortByStart (l : List (Nat × URange)) : List (Nat × URange) :=
  l.foldr insertSorted []

/-- Adjacency scan of `free_inner` (allocator.rs lines 156-166): walking
the sorted free list, whenever the previous entry's `start + capacity`
equals the current entry's `start`, push both indices. -/
def mergeScan : Nat → Nat → List (Nat × URange) → List Nat
  | _, _, [] => []
  | idx, last_end, x :: rest =>
    (if last_end > 0 && last_end == x.2.start then [idx - 1, idx] else [])
      ++ mergeScan (idx + 1) (x.2.start + x.1) rest

/-- `Vec::dedup`: remove consecutive duplicates keeping the first of each
run. -/
def dedupAdj : List Nat → List Nat
  | [] => []
  | [x] => [x]
  | x :: y :: rest =>
    if x = y then dedupAdj (y :: rest) else x :: dedupAdj (y :: rest)

/-- The removal loop `for _ in 0..indices.len() { free.remove(indices[0]) }`:
remove `n` times at the fixed position `i`. -/
def removeCount : List (Nat × URange) → Nat → Nat → List (Nat × URange)
  | l, _, 0 => l
  | l, i, n + 1 => removeCount (l.eraseIdx i) i n

/-- Zero-fill loop `for i in start..=stop { heap[i] = 0 }` (indices are in
bounds whenever the caller's ledger entry lies inside the arena). -/
def zeroizeRange (heap : List Nat) (start stop : Nat) : List Nat :=
  (List.range' start (stop + 1 - start)).foldl (fun h i => h.set i 0) heap

/-- Rust slice indexing `heap[start..stop1]`: defined exactly when
`start ≤ stop1 ≤ heap.len()`, otherwise a panic (`none`). -/
def sliceRange (heap : List Nat) (start stop1 : Nat) : Option (List Nat) :=
  if start ≤ stop1 ∧ stop1 ≤ heap.length then
    some ((heap.drop start).take (stop1 - start))
  else
    none

/-- `Allocator::new()`. -/
def Allocator.new : Allocator :=
  { heap := [], allocated := [], free := [], refs := [] }

/-- `register_process`: create an empty ledger entry for a fresh process. -/
def register_process (a : Allocator) (process_id : Nat) : Res Allocator :=
  if containsKey a.allocated process_id then
    .err .AlreadyRegistered
  else
    .ok { a with allocated := entrySet a.allocated process_id [] }

/-- `alloc_new`: grow the arena by `size` zero bytes and place the new
block at the tail; the stored range is `last_elem..(new_last_elem - 1)`
(inclusive end).  `none` models the debug-build underflow panic of
`new_last_elem - 1` when the heap is empty and `size = 0`. -/
def alloc_new (a : Allocator) (process_id size : Nat) : Option (URange × Allocator) :=
  let last_elem := a.heap.length
  let heap1 := a.heap ++ List.replicate size 0
  let new_last_elem := heap1.length
  match checkedSub new_last_elem 1 with
  | none => none
  | some e =>
    let range : URange := ⟨last_elem, e⟩
    let rid := a.refs.length
    some (range,
      { a with heap := heap1,
               refs := a.refs ++ [1],
               allocated := (entrySet a.allocated process_id
                 (lookupD a.allocated process_id [] ++ [⟨rid, range⟩])) })

/-- `alloc_free`: carve `size` bytes off the front of the free entry `fr`;
`end = start + size - 1` (underflow = `none`), push the leftover capacity
as a new free entry when it is nonzero, then append the new record. -/
def alloc_free (a : Allocator) (process_id size : Nat) (fr : Nat × URange) :
    Option (URange × Allocator) :=
  match checkedSub (fr.2.start + size) 1 with
  | none => none
  | some e =>
    match checkedSub fr.1 size with
    | none => none
    | some new_cap =>
      let a1 := if new_cap ≠ 0 then
          { a with free := a.free ++ [(new_cap, ⟨e + 1, fr.2.stop⟩)] }
        else a
      let range : URange := ⟨fr.2.start, e⟩
      let rid := a1.refs.length
      some (range,
        { a1 with refs := a1.refs ++ [1],
                  allocated := (entrySet a1.allocated process_id
                    (lookupD a1.allocated process_id [] ++ [⟨rid, range⟩])) })

/-- `alloc`: first-fit scan of the free list
(`free.iter().enumerate().find(|x| x.1.0 >= size)`); on a hit,
`swap_remove` the entry and carve from it, otherwise grow the arena. -/
def alloc (a : Allocator) (process_id size : Nat) : Option (Res (URange × Allocator)) :=
  if containsKey a.allocated process_id then
    match enumFind (fun x => decide (size ≤ x.1)) 0 a.free with
    | some (i, fr) =>
      (alloc_free { a with free := swapRemove a.free i } process_id size fr).map .ok
    | none => (alloc_new a process_id size).map .ok
  else
    some (.err .NoSuchProcess)

/-- `free_inner` (allocator.rs lines 103-224): find the caller's ledger
entry whose range starts at `start_idx`, decrement the shared counter,
remove the entry, and when the counter reaches zero return the bytes to
the free list, sort it, and coalesce every detected adjacent run.  The
merged capacity is computed as `end + 1`, exactly as in the source.
`none` models the debug-build underflow panic of `refcount - 1`. -/
def free_inner (a : Allocator) (process_id start_idx : Nat) (zeroize : Bool) :
    Option (Res (FreeBlock × Allocator)) :=
  if containsKey a.allocated process_id then
    let allocated := lookupD a.allocated process_id []
    match enumFind (fun x => decide (x.range.start = start_idx)) 0 allocated with
    | some (block_idx, block_real) =>
      let refcount0 := a.refs.getD block_real.rid 0
      let refs1 := a.refs.set block_real.rid (refcount0 - 1)
      match checkedSub refcount0 1 with
      | none => none
      | some refcount =>
        let block := block_real
        let a1 := { a with refs := refs1,
                           allocated := (entrySet a.allocated process_id
                             (swapRemove allocated block_idx)) }
        if refcount = 0 then
          let a2 := if zeroize then
              { a1 with heap := zeroizeRange a1.heap block.range.start block.range.stop }
            else a1
          let blocklen := block.range.stop - block.range.start + 1
          let free2 := sortByStart (a2.free ++ [(blocklen, block.range)])
          let indices := dedupAdj (mergeScan 0 0 free2)
          match indices with
          | [] => some (.ok (.Free blocklen, { a2 with free := free2 }))
          | i0 :: _ =>
            let start := (free2.getD i0 (0, ⟨0, 0⟩)).2.start
            let stop := (free2.getD (indices.getLastD 0) (0, ⟨0, 0⟩)).2.stop
            let cap := stop + 1
            let free3 := removeCount free2 i0 indices.length
            some (.ok (.FreeMerge cap,
              { a2 with free := free3 ++ [(cap, ⟨start, stop⟩)] }))
        else
          some (.ok (.RefcountDecreased, a1))
    | none => some (.err .BlockNotFound)
  else
    some (.err .NoSuchProcess)

/-- `free`: free without zeroizing. -/
def free (a : Allocator) (process_id start_idx : Nat) : Option (Res (FreeBlock × Allocator)) :=
  free_inner a process_id start_idx false

/-- `free_clear`: free and zeroize the underlying bytes. -/
def free_clear (a : Allocator) (process_id start_idx : Nat) : Option (Res (FreeBlock × Allocator)) :=
  free_inner a process_id start_idx true

/-- `range_borrow`: immutable borrow of `range` from the heap; requires a
single ledger record of the process containing the whole range.  The
returned slice is `heap[range.start .. range.end + 1]`; `none` models the
slice-indexing panic. -/
def range_borrow (a : Allocator) (process_id : Nat) (range : URange) :
    Option (Res (List Nat)) :=
  if containsKey a.allocated process_id then
    let allocated := lookupD a.allocated process_id []
    match findFirst
        (fun x => decide (x.range.start ≤ range.start) && decide (range.stop ≤ x.range.stop))
        allocated with
    | some _found_range => (sliceRange a.heap range.start (range.stop + 1)).map .ok
    | none => some (.err .NotOwned)
  else
    some (.err .NoSuchProcess)

/-- `range_borrow_mut`: same lookup and slice as `range_borrow`; the
mutable slice covers the same bytes and no allocator state changes. -/
def range_borrow_mut (a : Allocator) (process_id : Nat) (range : URange) :
    Option (Res (List Nat)) :=
  if containsKey a.allocated process_id then
    let allocated := lookupD a.allocated process_id []
    match findFirst
        (fun x => decide (x.range.start ≤ range.start) && decide (range.stop ≤ x.range.stop))
        allocated with
    | some _found_range => (sliceRange a.heap range.start (range.stop + 1)).map .ok
    | none => some (.err .NotOwned)
  else
    some (.err .NoSuchProcess)

/-- `share` (allocator.rs lines 304-345): look up the first record of the
source whose start offset is `≤ start_idx`, check the target is
registered, increment the shared counter and append an aliasing entry to
the target's ledger.  The state is returned alongside the result so that
the absence of mutation on the error paths is part of the statement. -/
def share (a : Allocator) (source_process target_process start_idx : Nat) :
    Res Unit × Allocator :=
  if containsKey a.allocated source_process then
    match findFirst (fun x => decide (x.range.start ≤ start_idx))
        (lookupD a.allocated source_process []) with
    | some memrange =>
      if containsKey a.allocated target_process then
        let a1 := { a with refs := a.refs.set memrange.rid (a.refs.getD memrange.rid 0 + 1) }
        (.ok (),
          { a1 with allocated := (entrySet a1.allocated target_process
              (lookupD a1.allocated target_process [] ++ [⟨memrange.rid, memrange.range⟩])) })
      else
        (.err .NoSuchProcess, a)
    | none => (.err .NotOwned, a)
  else
    (.err .NoSuchProcess, a)

/-- Logical length of a closed range `[start, stop]`. -/
def rangeLen (r : URange) : Nat :=
  r.stop - r.start + 1

/-- Sum of the stored capacities of all free-list entries. -/
def sumFree (a : Allocator) : Nat :=
  (a.free.map (fun x => x.1)).sum

/-- Every ledger entry of every registered process. -/
def ledgerEntries (a : Allocator) : List MemRange :=
  (a.allocated.map (fun kv => kv.2)).flatten

/-- Sum of the range lengths of a list of ledger entries, counting each
shared record (identified by its counter `rid`) once. -/
def sumLiveAux : List MemRange → List Nat → Nat
  | [], _ => 0
  | mr :: rest, seen =>
    if mr.rid ∈ seen then sumLiveAux rest seen
    else rangeLen mr.range + sumLiveAux rest (mr.rid :: seen)

/-- Sum of the lengths of all live allocated ranges, counting each shared
record once (spec §3 invariant 2 and §8 Conservation). -/
def sumLive (a : Allocator) : Nat :=
  sumLiveAux (ledgerEntries a) []

/-- Conservation invariant of the spec: arena length equals the sum of
distinct live record lengths plus the sum of free-list capacities. -/
def conservation (a : Allocator) : Prop :=
  a.heap.length = sumLive a + sumFree a

/-- Whether a borrow outcome is a success (a returned slice). -/
def borrowSuccess (r : Option (Res (List Nat))) : Bool :=
  match r with
  | some (.ok _) => true
  | _ => false

/-- Allocator states reachable from `Allocator.new` through the public
operations. -/
inductive Reachable : Allocator → Prop where
  | init : Reachable Allocator.new
  | register {a a' : Allocator} {p : Nat} :
      Reachable a → register_process a p = .ok a' → Reachable a'
  | alloc {a a' : Allocator} {p n : Nat} {r : URange} :
      Reachable a → alloc a p n = some (.ok (r, a')) → Reachable a'
  | free {a a' : Allocator} {p s : Nat} {fb : FreeBlock} :
      Reachable a → free a p s = some (.ok (fb, a')) → Reachable a'
  | free_clear {a a' : Allocator} {p s : Nat} {fb : FreeBlock} :
      Reachable a → free_clear a p s = some (.ok (fb, a')) → Reachable a'
  | share {a a' : Allocator} {p q s : Nat} :
      Reachable a → share a p q s = (.ok (), a') → Reachable a'

/-- Whether a free outcome is a merge report. -/
def isMergeOutcome (r : Option (Res (FreeBlock × Allocator))) : Bool :=
  match r with
  | some (.ok (.FreeMerge _, _)) => true
  | _ => false

/-- State after registering process 0 on a fresh allocator. -/
def exReg0 : Allocator :=
  ⟨[], [(0, [])], [], []⟩

/-- State with process 5 registered and owning one record `[0,3]` whose
shared counter (index 0) holds 1. -/
def exW10 : Allocator :=
  ⟨List.replicate 4 0, [(5, [⟨0, ⟨0, 3⟩⟩])], [], [1]⟩

/-- State with process 0 registered and owning two byte-adjacent records
`[0,3]` and `[4,7]` backed by distinct counters. -/
def exW8 : Allocator :=
  ⟨List.replicate 8 0, [(0, [⟨0, ⟨0, 3⟩⟩, ⟨1, ⟨4, 7⟩⟩])], [], [1, 1]⟩

/-- State with process 0 registered, an empty ledger, and free entries of
capacities `[8, 4, 16]` in that order covering the whole 28-byte arena. -/
def exW7 : Allocator :=
  ⟨List.replicate 28 0, [(0, [])], [(8, ⟨0, 7⟩), (4, ⟨8, 11⟩), (16, ⟨12, 27⟩)], []⟩

/-- State after registering processes 0, 1, 2, allocating 4 bytes under
each in turn (blocks `[0,3]`, `[4,7]`, `[8,11]`), and freeing process 1's
block: the free list holds the middle block only. -/
def exM2 : Allocator :=
  ⟨List.replicate 12 0,
   [(0, [⟨0, ⟨0, 3⟩⟩]), (1, []), (2, [⟨2, ⟨8, 11⟩⟩])],
   [(4, ⟨4, 7⟩)],
   [1, 0, 1]⟩

/-- State reached from `exM2` by process 2 freeing its block `[8,11]`:
the two free entries of capacity 4 covering `[4,11]` are merged, and the
merged entry's stored capacity is 12 (`end + 1`), not 8. -/
def exM3 : Allocator :=
  ⟨List.replicate 12 0,
   [(0, [⟨0, ⟨0, 3⟩⟩]), (1, []), (2, [])],
   [(12, ⟨4, 11⟩)],
   [1, 0, 0]⟩

/-- State after registering process 0 and allocating three 4-byte blocks
under it, then freeing the block at offset 0. -/
def exK1 : Allocator :=
  ⟨List.replicate 12 0,
   [(0, [⟨2, ⟨8, 11⟩⟩, ⟨1, ⟨4, 7⟩⟩])],
   [(4, ⟨0, 3⟩)],
   [0, 1, 1]⟩

/-- State reached from `exK1` by freeing the block at offset 8. -/
def exK2 : Allocator :=
  ⟨List.replicate 12 0,
   [(0, [⟨1, ⟨4, 7⟩⟩])],
   [(4, ⟨0, 3⟩), (4, ⟨8, 11⟩)],
   [0, 1, 0]⟩

/-- State reached from `exK2` by freeing the block at offset 4: all three
entries merge into one entry of capacity 12 at offset 0. -/
def exK3 : Allocator :=
  ⟨List.replicate 12 0,
   [(0, [])],
   [(12, ⟨0, 11⟩)],
   [0, 0, 0]⟩

/-- State after registering process 0 and allocating one 8-byte block. -/
def exS9 : Allocator :=
  ⟨List.replicate 8 0,
   [(0, [⟨0, ⟨0, 7⟩⟩])],
   [],
   [1]⟩

/-- Resulting state of one `share p q s` call (the state component is
returned unconditionally, so error paths leave it unchanged). -/
def stepShare (p s : Nat) (a : Allocator) (q : Nat) : Allocator :=
  (share a p q s).2

/-- State after sharing the record at start offset `s` from `p` to each
process of `qs` in order. -/
def afterShares (a : Allocator) (p s : Nat) (qs : List Nat) : Allocator :=
  qs.foldl (stepShare p s) a

/-- Resulting state of one successful `free q s` call (unchanged when the
call errors or panics). -/
def stepFree (s : Nat) (a : Allocator) (q : Nat) : Allocator :=
  match free a q s with
  | some (.ok (_, a')) => a'
  | _ => a

/-- State after each process of `qs` in order frees the block at start
offset `s`. -/
def afterFrees (a : Allocator) (s : Nat) (qs : List Nat) : Allocator :=
  qs.foldl (stepFree s) a

/-- State with processes 0, 1, 2 registered, process 0 owning the single
record `[0,3]` with counter value 1, and processes 1 and 2 empty. -/
def exW6 : Allocator :=
  ⟨List.replicate 4 0, [(0, [⟨0, ⟨0, 3⟩⟩]), (1, []), (2, [])], [], [1]⟩

lemma reachable_exReg0 : Reachable exReg0 := by
  have e1 : register_process Allocator.new 0 = .ok exReg0 := by decide
  exact Reachable.register Reachable.init e1

lemma reachable_exM2 : Reachable exM2 := by
  have e1 : register_process Allocator.new 0 = .ok exReg0 := by decide
  have e2 : register_process exReg0 1 = .ok ⟨[], [(0, []), (1, [])], [], []⟩ := by decide
  have e3 : register_process (⟨[], [(0, []), (1, [])], [], []⟩ : Allocator) 2
      = .ok ⟨[], [(0, []), (1, []), (2, [])], [], []⟩ := by decide
  have e4 : alloc (⟨[], [(0, []), (1, []), (2, [])], [], []⟩ : Allocator) 0 4
      = some (.ok (⟨0, 3⟩,
        ⟨List.replicate 4 0, [(0, [⟨0, ⟨0, 3⟩⟩]), (1, []), (2, [])], [], [1]⟩)) := by decide
  have e5 : alloc (⟨List.replicate 4 0, [(0, [⟨0, ⟨0, 3⟩⟩]), (1, []), (2, [])], [], [1]⟩ :
        Allocator) 1 4
      = some (.ok (⟨4, 7⟩,
        ⟨List.replicate 8 0, [(0, [⟨0, ⟨0, 3⟩⟩]), (1, [⟨1, ⟨4, 7⟩⟩]), (2, [])], [],
         [1, 1]⟩)) := by decide
  have e6 : alloc (⟨List.replicate 8 0, [(0, [⟨0, ⟨0, 3⟩⟩]), (1, [⟨1, ⟨4, 7⟩⟩]), (2, [])], [],
        [1, 1]⟩ : Allocator) 2 4
      = some (.ok (⟨8, 11⟩,
        ⟨List.replicate 12 0,
         [(0, [⟨0, ⟨0, 3⟩⟩]), (1, [⟨1, ⟨4, 7⟩⟩]), (2, [⟨2, ⟨8, 11⟩⟩])], [],
         [1, 1, 1]⟩)) := by decide
  have e7 : free (⟨List.replicate 12 0,
        [(0, [⟨0, ⟨0, 3⟩⟩]), (1, [⟨1, ⟨4, 7⟩⟩]), (2, [⟨2, ⟨8, 11⟩⟩])], [],
        [1, 1, 1]⟩ : Allocator) 1 4
      = some (.ok (.Free 4, exM2)) := by decide
  exact Reachable.free (Reachable.alloc (Reachable.alloc (Reachable.alloc
    (Reachable.register (Reachable.register (Reachable.register Reachable.init e1) e2) e3)
    e4) e5) e6) e7

lemma free_exM2 : free exM2 2 8 = some (.ok (.FreeMerge 12, exM3)) := by decide

lemma reachable_exM3 : Reachable exM3 :=
  Reachable.free reachable_exM2 free_exM2

lemma reachable_exK1 : Reachable exK1 := by
  have e1 : register_process Allocator.new 0 = .ok exReg0 := by decide
  have e2 : alloc exReg0 0 4
      = some (.ok (⟨0, 3⟩, ⟨List.replicate 4 0, [(0, [⟨0, ⟨0, 3⟩⟩])], [], [1]⟩)) := by decide
  have e3 : alloc (⟨List.replicate 4 0, [(0, [⟨0, ⟨0, 3⟩⟩])], [], [1]⟩ : Allocator) 0 4
      = some (.ok (⟨4, 7⟩,
        ⟨List.replicate 8 0, [(0, [⟨0, ⟨0, 3⟩⟩, ⟨1, ⟨4, 7⟩⟩])], [], [1, 1]⟩)) := by decide
  have e4 : alloc (⟨List.replicate 8 0, [(0, [⟨0, ⟨0, 3⟩⟩, ⟨1, ⟨4, 7⟩⟩])], [], [1, 1]⟩ :
        Allocator) 0 4
      = some (.ok (⟨8, 11⟩,
        ⟨List.replicate 12 0, [(0, [⟨0, ⟨0, 3⟩⟩, ⟨1, ⟨4, 7⟩⟩, ⟨2, ⟨8, 11⟩⟩])], [],
         [1, 1, 1]⟩)) := by decide
  have e5 : free (⟨List.replicate 12 0,
        [(0, [⟨0, ⟨0, 3⟩⟩, ⟨1, ⟨4, 7⟩⟩, ⟨2, ⟨8, 11⟩⟩])], [], [1, 1, 1]⟩ : Allocator) 0 0
      = some (.ok (.Free 4, exK1)) := by decide
  exact Reachable.free (Reachable.alloc (Reachable.alloc (Reachable.alloc
    (Reachable.register Reachable.init e1) e2) e3) e4) e5

lemma free_exK1 : free exK1 0 8 = some (.ok (.Free 4, exK2)) := by decide

lemma reachable_exK2 : Reachable exK2 :=
  Reachable.free reachable_exK1 free_exK1

lemma reachable_exS9 : Reachable exS9 := by
  have e1 : register_process Allocator.new 0 = .ok exReg0 := by decide
  have e2 : alloc exReg0 0 8 = some (.ok (⟨0, 7⟩, exS9)) := by decide
  exact Reachable.alloc (Reachable.register Reachable.init e1) e2

/-- C1: in the reachable state `exM2` the free list holds `(4, [4,7])`,
and freeing process 2's block `[8,11]` produces a run of two mutually
adjacent entries of capacities 4 and 4 covering `[4,11]`.  The source
replaces the run by a single entry as claimed, but its stored capacity and
the reported `FreeMerge` total are `end + 1 = 12`, not the combined range
length `4 + 4 = 8` — the claim is right about the intent and the code
computes the wrong capacity whenever the merged run does not start at
offset 0. -/
theorem merge_capacity_code_bug :
    Reachable exM2 ∧
    exM2.free = [(4, ⟨4, 7⟩)] ∧
    free exM2 2 8 = some (.ok (.FreeMerge 12, exM3)) ∧
    exM3.free = [(12, ⟨4, 11⟩)] ∧
    rangeLen ⟨4, 11⟩ = 8 ∧
    (12 : Nat) ≠ 4 + 4 :=
  ⟨reachable_exM2, by decide, free_exM2, by decide, by decide, by decide⟩

/-- C2: the reachable state `exM3` (produced by the merge of `exM2`, see
`merge_capacity_code_bug`) violates the conservation invariant: the arena
holds 12 bytes, while the distinct live records sum to 4 and the free-list
capacities sum to 12. -/
theorem conservation_code_bug :
    Reachable exM3 ∧
    exM3.heap.length = 12 ∧
    sumLive exM3 = 4 ∧
    sumFree exM3 = 12 ∧
    ¬ conservation exM3 :=
  ⟨reachable_exM3, by decide, by decide, by decide, by unfold conservation; decide⟩

/-- C3: allocation of size zero is not rejected with an explicit error:
in the reachable state `exReg0` (fresh allocator, process 0 registered),
`alloc exReg0 0 0` reaches `alloc_new`, where `new_last_elem - 1`
underflows (`none` models the debug-build panic) instead of returning an
error as the spec requires. -/
theorem alloc_zero_size_code_bug :
    Reachable exReg0 ∧
    containsKey exReg0.allocated 0 = true ∧
    alloc exReg0 0 0 = none :=
  ⟨reachable_exReg0, by decide, by decide⟩

/-- C4 counterexample: in the spec's coalescing scenario (three contiguous
4-byte allocations freed in order `[0, 8, 4]` of original start offsets),
the second-to-last free — the one of the block at offset 8, performed in
the reachable state `exK1` — reports plain `Free 4`, not a merge outcome,
so the claim as stated is false. -/
theorem coalesce_second_free_counterexample :
    Reachable exK1 ∧
    free exK1 0 8 = some (.ok (.Free 4, exK2)) ∧
    isMergeOutcome (free exK1 0 8) = false :=
  ⟨reachable_exK1, free_exK1, by decide⟩

/-- C4 amended: in the same scenario it is the last of the three frees
that reports the merge outcome with the correct total capacity 12, and it
leaves a single free-list entry of capacity 12 starting at the original
first offset 0. -/
theorem coalesce_last_free_merges :
    Reachable exK2 ∧
    free exK2 0 4 = some (.ok (.FreeMerge 12, exK3)) ∧
    exK3.free = [(12, ⟨0, 11⟩)] ∧
    rangeLen ⟨0, 11⟩ = 12 :=
  ⟨reachable_exK2, by decide, by decide, by decide⟩

/-- C5 counterexample: with source process 0 registered (empty ledger) and
target process 1 unregistered, `share` fails with `NotOwned` — the source
ledger lookup fails before the target registration check runs — not with
`NoSuchProcess` as the claim requires for every call with an unregistered
party (the state is still left unchanged). -/
theorem share_unregistered_target_counterexample :
    Reachable exReg0 ∧
    containsKey exReg0.allocated 1 = false ∧
    share exReg0 0 1 0 = (.err .NotOwned, exReg0) ∧
    AllocError.NotOwned ≠ AllocError.NoSuchProcess :=
  ⟨reachable_exReg0, by decide, by decide, by decide⟩

lemma lookupD_entrySet_self (m : List (Nat × List MemRange)) (k : Nat) (v d : List MemRange) :
    lookupD (entrySet m k v) k d = v := by
  induction m with
  | nil => simp [entrySet, lookupD]
  | cons kv rest ih =>
    obtain ⟨k', w⟩ := kv
    by_cases h : k' = k <;> simp [entrySet, lookupD, h, ih]

lemma lookupD_entrySet_ne (m : List (Nat × List MemRange)) {k k' : Nat}
    (v d : List MemRange) (h : k' ≠ k) :
    lookupD (entrySet m k v) k' d = lookupD m k' d := by
  have h' : ¬ (k = k') := fun hx => h hx.symm
  induction m with
  | nil =>
    simp only [entrySet, lookupD]
    rw [if_neg h']
  | cons kv rest ih =>
    obtain ⟨k'', w⟩ := kv
    simp only [entrySet]
    by_cases hk : k'' = k
    · rw [if_pos hk]
      subst hk
      simp only [lookupD]
      rw [if_neg h', if_neg h']
    · rw [if_neg hk]
      simp only [lookupD]
      by_cases hk' : k'' = k'
      · rw [if_pos hk', if_pos hk']
      · rw [if_neg hk', if_neg hk', ih]

lemma containsKey_entrySet (m : List (Nat × List MemRange)) (k k' : Nat)
    (v : List MemRange) :
    containsKey (entrySet m k v) k' = (containsKey m k' || decide (k' = k)) := by
  induction m with
  | nil =>
    by_cases h : k = k'
    · subst h
      simp [entrySet, containsKey]
    · have hne : ¬ (k' = k) := fun hx => h hx.symm
      simp [entrySet, containsKey, h, hne]
  | cons kv rest ih =>
    obtain ⟨k'', w⟩ := kv
    simp only [entrySet]
    by_cases hk : k'' = k
    · rw [if_pos hk]
      subst hk
      by_cases hk' : k'' = k'
      · subst hk'
        simp [containsKey]
      · have hne : ¬ (k' = k'') := fun hx => hk' hx.symm
        simp [containsKey, hk', hne]
    · rw [if_neg hk]
      by_cases hk' : k'' = k'
      · subst hk'
        simp [containsKey]
      · simp [containsKey, hk', ih]

lemma containsKey_entrySet_of_contains (m : List (Nat × List MemRange)) (k k' : Nat)
    (v : List MemRange) (h : containsKey m k = true) :
    containsKey (entrySet m k v) k' = containsKey m k' := by
  rw [containsKey_entrySet]
  by_cases hk : k' = k
  · subst hk
    simp [h]
  · simp [hk]

lemma findFirst_eq_none {α : Type} {p : α → Bool} {l : List α} :
    findFirst p l = none ↔ ∀ x ∈ l, p x = false := by
  induction l with
  | nil => simp [findFirst]
  | cons y rest ih =>
    by_cases h : p y <;> simp [findFirst, h, ih]

lemma findFirst_eq_some {α : Type} {p : α → Bool} {l : List α} {x : α}
    (h : findFirst p l = some x) : x ∈ l ∧ p x = true := by
  induction l with
  | nil => simp [findFirst] at h
  | cons y rest ih =>
    by_cases hy : p y
    · simp [findFirst, hy] at h
      subst h
      exact ⟨List.mem_cons_self y rest, hy⟩
    · simp [findFirst, hy] at h
      obtain ⟨hmem, hp⟩ := ih h
      exact ⟨List.mem_cons_of_mem y hmem, hp⟩

lemma findFirst_isSome {α : Type} {p : α → Bool} {l : List α}
    (h : ∃ x ∈ l, p x = true) : (findFirst p l).isSome = true := by
  induction l with
  | nil => simp at h
  | cons y rest ih =>
    by_cases hy : p y
    · simp [findFirst, hy]
    · simp [findFirst, hy]
      obtain ⟨x, hmem, hp⟩ := h
      rcases List.mem_cons.mp hmem with rfl | hmem'
      · exact absurd hp (by simp [hy])
      · exact ih ⟨x, hmem', hp⟩

lemma enumFind_shift {α : Type} (p : α → Bool) (l : List α) :
    ∀ k, enumFind p (k + 1) l = (enumFind p k l).map (fun ix => (ix.1 + 1, ix.2)) := by
  induction l with
  | nil => intro k; simp [enumFind]
  | cons y rest ih =>
    intro k
    by_cases hy : p y <;> simp [enumFind, hy, ih (k + 1)]

lemma enumFind_spec {α : Type} (p : α → Bool) (d : α) :
    ∀ (l : List α) (i : Nat) (x : α), enumFind p 0 l = some (i, x) →
      i < l.length ∧ l.getD i d = x ∧ p x = true ∧
        ∀ j, j < i → p (l.getD j d) = false := by
  intro l
  induction l with
  | nil => intro i x h; simp [enumFind] at h
  | cons y rest ih =>
    intro i x h
    by_cases hy : p y
    · simp [enumFind, hy] at h
      obtain ⟨hi, hx⟩ := h
      subst hi
      subst hx
      exact ⟨Nat.succ_pos _, rfl, hy, fun j hj => absurd hj (Nat.not_lt_zero j)⟩
    · simp only [enumFind, if_neg hy] at h
      rw [enumFind_shift p rest 0] at h
      match hrec : enumFind p 0 rest with
      | none => rw [hrec] at h; simp at h
      | some (i', x') =>
        rw [hrec] at h
        simp at h
        obtain ⟨hi, hx⟩ := h
        obtain ⟨hlen, hget, hp, hprev⟩ := ih i' x' hrec
        subst hx
        have hgoal1 : i < (y :: rest).length := by
          rw [← hi]; simpa [Nat.succ_lt_succ_iff] using hlen
        refine ⟨hgoal1, ?_, hp, ?_⟩
        · rw [← hi]; simpa using hget
        · intro j hj
          match j with
          | 0 => simpa [List.getD] using hy
          | j' + 1 =>
            have hj' : j' < i' := by omega
            simpa using hprev j' hj'

/-- C5 amended: `share` fails with `NoSuchProcess` when the source process
is unregistered, and when the target process is unregistered provided the
source-ledger lookup (first record with start offset `≤ start_idx`)
succeeds; when the target is unregistered but the source lookup fails, the
error is `NotOwned` instead.  On every error path the allocator state is
returned unchanged: no refcount, ledger, arena, or free-list mutation
happens before a precondition failure is detected. -/
theorem share_error_paths (a : Allocator) (src tgt s : Nat) :
    (containsKey a.allocated src = false →
      share a src tgt s = (.err .NoSuchProcess, a)) ∧
    (containsKey a.allocated src = true →
      (∀ e, findFirst (fun x => decide (x.range.start ≤ s))
          (lookupD a.allocated src []) = some e →
        containsKey a.allocated tgt = false →
        share a src tgt s = (.err .NoSuchProcess, a)) ∧
      (findFirst (fun x => decide (x.range.start ≤ s))
          (lookupD a.allocated src []) = none →
        share a src tgt s = (.err .NotOwned, a))) ∧
    (∀ er, (share a src tgt s).1 = .err er → (share a src tgt s).2 = a) := by
  refine ⟨fun hsrc => ?_, fun hsrc => ⟨fun e hfind htgt => ?_, fun hfind => ?_⟩, ?_⟩
  · simp [share, hsrc]
  · simp [share, hsrc, hfind, htgt]
  · simp [share, hsrc, hfind]
  · intro er her
    by_cases hsrc : containsKey a.allocated src
    · match hfind : findFirst (fun x => decide (x.range.start ≤ s))
          (lookupD a.allocated src []) with
      | some e =>
        by_cases htgt : containsKey a.allocated tgt
        · simp [share, hsrc, hfind, htgt] at her
        · simp [share, hsrc, hfind, htgt]
      | none => simp [share, hsrc, hfind]
    · simp [share, hsrc]

/-- C5 witness: on a fresh allocator an unregistered source yields
`NoSuchProcess` with no state change. -/
theorem share_error_paths_witness :
    share Allocator.new 3 4 0 = (.err .NoSuchProcess, Allocator.new) :=
  (share_error_paths Allocator.new 3 4 0).1 (by decide)

/-- C10: a registered process `p` may share with itself: when the lookup
over `p`'s own ledger finds a record `e` with start offset `≤ s`, the call
`share a p p s` succeeds, increments `e`'s shared counter by one, and
appends to `p`'s own ledger a second entry aliasing the same counter
(`rid`) and range, leaving `p` with two ledger entries for one record. -/
theorem self_share_appends_alias (a : Allocator) (p s : Nat) (e : MemRange)
    (hp : containsKey a.allocated p = true)
    (hfind : findFirst (fun x => decide (x.range.start ≤ s))
      (lookupD a.allocated p []) = some e)
    (hrid : e.rid < a.refs.length) :
    share a p p s = (.ok (),
      { a with refs := a.refs.set e.rid (a.refs.getD e.rid 0 + 1),
               allocated := entrySet a.allocated p (lookupD a.allocated p [] ++ [e]) }) ∧
    lookupD (share a p p s).2.allocated p [] = lookupD a.allocated p [] ++ [e] ∧
    (share a p p s).2.refs.getD e.rid 0 = a.refs.getD e.rid 0 + 1 := by
  have hshare : share a p p s = (.ok (),
      { a with refs := a.refs.set e.rid (a.refs.getD e.rid 0 + 1),
               allocated := entrySet a.allocated p (lookupD a.allocated p [] ++ [e]) }) := by
    simp [share, hp, hfind]
  refine ⟨hshare, ?_, ?_⟩
  · rw [hshare]
    exact lookupD_entrySet_self a.allocated p (lookupD a.allocated p [] ++ [e]) []
  · rw [hshare]
    simp [List.getD, List.getElem?_set_self', hrid]

/-- C10 witness: process 5 owning `[0,3]` (counter value 1) self-shares at
offset 0 and ends with two aliasing ledger entries and counter value 2. -/
theorem self_share_witness :
    share exW10 5 5 0 = (.ok (),
      ⟨List.replicate 4 0, [(5, [⟨0, ⟨0, 3⟩⟩, ⟨0, ⟨0, 3⟩⟩])], [], [2]⟩) ∧
    lookupD (share exW10 5 5 0).2.allocated 5 [] = [⟨0, ⟨0, 3⟩⟩, ⟨0, ⟨0, 3⟩⟩] ∧
    (share exW10 5 5 0).2.refs.getD 0 0 = 2 := by
  have h := self_share_appends_alias exW10 5 0 ⟨0, ⟨0, 3⟩⟩ (by decide) (by decide) (by decide)
  exact ⟨h.1.trans (by decide), h.2.1.trans (by decide), h.2.2.trans (by decide)⟩

/-- C8: for a registered process whose ledger records all end inside the
arena, and a well-formed request (`start ≤ stop`), `range_borrow` and
`range_borrow_mut` succeed exactly when a single ledger record of that
process fully contains the requested range (`record.start ≤ range.start`
and `record.end ≥ range.end`); when no single record contains it — in
particular when it spans two byte-adjacent records — both fail with
`NotOwned`, and an unregistered process yields `NoSuchProcess`. -/
theorem borrow_containment (a : Allocator) (pid : Nat) (r : URange)
    (hr : r.start ≤ r.stop)
    (hwf : ∀ mr ∈ lookupD a.allocated pid [], mr.range.stop < a.heap.length) :
    (containsKey a.allocated pid = false →
      range_borrow a pid r = some (.err .NoSuchProcess) ∧
      range_borrow_mut a pid r = some (.err .NoSuchProcess)) ∧
    (containsKey a.allocated pid = true →
      ((borrowSuccess (range_borrow a pid r) = true ↔
          ∃ mr ∈ lookupD a.allocated pid [],
            mr.range.start ≤ r.start ∧ r.stop ≤ mr.range.stop) ∧
       (borrowSuccess (range_borrow_mut a pid r) = true ↔
          ∃ mr ∈ lookupD a.allocated pid [],
            mr.range.start ≤ r.start ∧ r.stop ≤ mr.range.stop) ∧
       ((¬ ∃ mr ∈ lookupD a.allocated pid [],
            mr.range.start ≤ r.start ∧ r.stop ≤ mr.range.stop) →
          range_borrow a pid r = some (.err .NotOwned) ∧
          range_borrow_mut a pid r = some (.err .NotOwned)))) := by
  constructor
  · intro h
    exact ⟨by simp [range_borrow, h], by simp [range_borrow_mut, h]⟩
  · intro h
    match hfind : findFirst
        (fun x => decide (x.range.start ≤ r.start) && decide (r.stop ≤ x.range.stop))
        (lookupD a.allocated pid []) with
    | some mr =>
      obtain ⟨hmem, hp⟩ := findFirst_eq_some hfind
      simp only [Bool.and_eq_true, decide_eq_true_eq] at hp
      have h1 : r.start ≤ r.stop + 1 := Nat.le_succ_of_le hr
      have h2 : r.stop + 1 ≤ a.heap.length :=
        Nat.succ_le_of_lt (Nat.lt_of_le_of_lt hp.2 (hwf mr hmem))
      have hslice : sliceRange a.heap r.start (r.stop + 1)
          = some ((a.heap.drop r.start).take (r.stop + 1 - r.start)) := by
        simp [sliceRange, h1, h2]
      have hb : range_borrow a pid r
          = some (.ok ((a.heap.drop r.start).take (r.stop + 1 - r.start))) := by
        simp [range_borrow, h, hfind, hslice]
      have hbm : range_borrow_mut a pid r
          = some (.ok ((a.heap.drop r.start).take (r.stop + 1 - r.start))) := by
        simp [range_borrow_mut, h, hfind, hslice]
      have hex : ∃ mr ∈ lookupD a.allocated pid [],
          mr.range.start ≤ r.start ∧ r.stop ≤ mr.range.stop := ⟨mr, hmem, hp.1, hp.2⟩
      refine ⟨?_, ?_, fun hnex => absurd hex hnex⟩
      · simp [hb, borrowSuccess, hex]
      · simp [hbm, borrowSuccess, hex]
    | none =>
      have hno := findFirst_eq_none.mp hfind
      have hnex : ¬ ∃ mr ∈ lookupD a.allocated pid [],
          mr.range.start ≤ r.start ∧ r.stop ≤ mr.range.stop := by
        rintro ⟨mr, hmem, hc1, hc2⟩
        have hx := hno mr hmem
        simp [hc1, hc2] at hx
      have hb : range_borrow a pid r = some (.err .NotOwned) := by
        simp [range_borrow, h, hfind]
      have hbm : range_borrow_mut a pid r = some (.err .NotOwned) := by
        simp [range_borrow_mut, h, hfind]
      refine ⟨?_, ?_, fun _ => ⟨hb, hbm⟩⟩
      · simp [hb, borrowSuccess, hnex]
      · simp [hbm, borrowSuccess, hnex]

/-- C8 witness: process 0 owns the byte-adjacent records `[0,3]` and
`[4,7]`; borrowing the spanning super-range `[0,7]` fails with `NotOwned`
for both the immutable and the mutable variant. -/
theorem borrow_containment_witness :
    range_borrow exW8 0 ⟨0, 7⟩ = some (.err .NotOwned) ∧
    range_borrow_mut exW8 0 ⟨0, 7⟩ = some (.err .NotOwned) :=
  ((borrow_containment exW8 0 ⟨0, 7⟩ (by decide) (by decide)).2 (by decide)).2.2 (by decide)

/-- C7: allocation by a registered process with positive size is
first-fit: the free list is scanned in its current order and the first
entry with capacity `≥ size` is taken (every earlier entry is strictly
smaller than `size`), the first `size` bytes are carved off and any
leftover capacity is pushed as a new free-list entry (the taken entry
itself is removed with `swap_remove`); when no entry is large enough the
arena grows by exactly `size` zero-initialized bytes and the allocation is
placed at the new tail.  A fresh record with counter value 1 is appended
to the process's ledger in both cases. -/
theorem first_fit_alloc (a : Allocator) (pid size : Nat)
    (hreg : containsKey a.allocated pid = true) (hpos : 1 ≤ size) :
    (∀ i fr, enumFind (fun x => decide (size ≤ x.1)) 0 a.free = some (i, fr) →
      (i < a.free.length ∧ a.free.getD i (0, ⟨0, 0⟩) = fr ∧ size ≤ fr.1 ∧
        ∀ j, j < i → (a.free.getD j (0, ⟨0, 0⟩)).1 < size) ∧
      alloc a pid size = some (.ok (⟨fr.2.start, fr.2.start + size - 1⟩,
        { a with
          free := swapRemove a.free i ++
            (if fr.1 - size ≠ 0 then [(fr.1 - size, ⟨fr.2.start + size, fr.2.stop⟩)] else []),
          refs := a.refs ++ [1],
          allocated := (entrySet a.allocated pid
            (lookupD a.allocated pid []
              ++ [⟨a.refs.length, ⟨fr.2.start, fr.2.start + size - 1⟩⟩])) }))) ∧
    (enumFind (fun x => decide (size ≤ x.1)) 0 a.free = none →
      alloc a pid size = some (.ok (⟨a.heap.length, a.heap.length + size - 1⟩,
        { a with
          heap := a.heap ++ List.replicate size 0,
          refs := a.refs ++ [1],
          allocated := (entrySet a.allocated pid
            (lookupD a.allocated pid []
              ++ [⟨a.refs.length, ⟨a.heap.length, a.heap.length + size - 1⟩⟩])) }))) := by
  constructor
  · intro i fr hfind
    obtain ⟨hlen, hget, hp, hprev⟩ :=
      enumFind_spec (fun x => decide (size ≤ x.1)) (0, ⟨0, 0⟩) a.free i fr hfind
    simp only [decide_eq_true_eq] at hp
    have hprev' : ∀ j, j < i → (a.free.getD j (0, ⟨0, 0⟩)).1 < size := by
      intro j hj
      have hx := hprev j hj
      simp only [decide_eq_false_iff_not] at hx
      omega
    refine ⟨⟨hlen, hget, hp, hprev'⟩, ?_⟩
    have hsub1 : checkedSub (fr.2.start + size) 1 = some (fr.2.start + size - 1) := by
      simp only [checkedSub, if_pos (by omega : 1 ≤ fr.2.start + size)]
    have hsub2 : checkedSub fr.1 size = some (fr.1 - size) := by
      simp only [checkedSub, if_pos hp]
    have hplus : fr.2.start + size - 1 + 1 = fr.2.start + size := by omega
    by_cases hcap : fr.1 - size = 0
    · simp [alloc, hreg, hfind, alloc_free, hsub1, hsub2, hcap, hplus]
    · simp [alloc, hreg, hfind, alloc_free, hsub1, hsub2, hcap, hplus]
  · intro hfind
    have hsub : checkedSub (a.heap.length + size) 1 = some (a.heap.length + size - 1) := by
      simp only [checkedSub, if_pos (by omega : 1 ≤ a.heap.length + size)]
    simp [alloc, hreg, hfind, alloc_new, hsub]

/-- C7 witness: with free entries of capacities `[8, 4, 16]` in that order
covering `[0,7]`, `[8,11]`, `[12,27]`, a request of size 4 takes the
capacity-8 entry and leaves a residual 4-byte free entry `[4,7]`, keeping
the exact-fit 4-byte entry `[8,11]` untouched. -/
theorem first_fit_alloc_witness :
    alloc exW7 0 4 = some (.ok (⟨0, 3⟩,
      ⟨List.replicate 28 0,
       [(0, [⟨0, ⟨0, 3⟩⟩])],
       [(16, ⟨12, 27⟩), (4, ⟨8, 11⟩), (4, ⟨4, 7⟩)],
       [1]⟩)) ∧
    exW7.free.getD 0 (0, ⟨0, 0⟩) = (8, ⟨0, 7⟩) ∧
    exW7.free.getD 1 (0, ⟨0, 0⟩) = (4, ⟨8, 11⟩) := by
  have h := ((first_fit_alloc exW7 0 4 (by decide) (by decide)).1 0 (8, ⟨0, 7⟩) (by decide)).2
  exact ⟨h.trans (by decide), by decide, by decide⟩

/-- C9: in the reachable state `exS9` process 0 owns the record `[0,7]`,
and the request `⟨5, 2⟩` (end before start) passes the containment test of
`range_borrow` and `range_borrow_mut`; both operations then panic when
slicing the heap (`none`), so the borrow operations are not total over all
`u32` range arguments. -/
theorem borrow_invalid_range_panics :
    Reachable exS9 ∧
    URange.stop ⟨5, 2⟩ < URange.start ⟨5, 2⟩ ∧
    findFirst
      (fun x => decide (x.range.start ≤ URange.start ⟨5, 2⟩)
        && decide (URange.stop ⟨5, 2⟩ ≤ x.range.stop))
      (lookupD exS9.allocated 0 []) = some ⟨0, ⟨0, 7⟩⟩ ∧
    range_borrow exS9 0 ⟨5, 2⟩ = none ∧
    range_borrow_mut exS9 0 ⟨5, 2⟩ = none :=
  ⟨reachable_exS9, by decide, by decide, by decide, by decide⟩

lemma getD_set_self (l : List Nat) (i v d : Nat) (h : i < l.length) :
    (l.set i v).getD i d = v := by
  simp [List.getD, List.getElem?_set_self', h]

lemma share_step (a : Allocator) (p q s : Nat) (e : MemRange)
    (hp : containsKey a.allocated p = true)
    (hpl : lookupD a.allocated p [] = [e])
    (hs : e.range.start = s)
    (hq : containsKey a.allocated q = true) :
    share a p q s = (.ok (),
      { a with refs := a.refs.set e.rid (a.refs.getD e.rid 0 + 1),
               allocated := entrySet a.allocated q (lookupD a.allocated q [] ++ [e]) }) := by
  have hfind : findFirst (fun x => decide (x.range.start ≤ s))
      (lookupD a.allocated p []) = some e := by
    rw [hpl]
    simp [findFirst, hs]
  simp [share, hp, hfind, hq]

lemma free_step_decr (a : Allocator) (q s : Nat) (e : MemRange) (c : Nat)
    (hq : containsKey a.allocated q = true)
    (hql : lookupD a.allocated q [] = [e])
    (hs : e.range.start = s)
    (hc : a.refs.getD e.rid 0 = c)
    (h2 : 2 ≤ c) :
    free a q s = some (.ok (.RefcountDecreased,
      { a with refs := a.refs.set e.rid (c - 1),
               allocated := entrySet a.allocated q [] })) := by
  have hfind : enumFind (fun x => decide (x.range.start = s)) 0
      (lookupD a.allocated q []) = some (0, e) := by
    rw [hql]
    simp [enumFind, hs]
  have hsub : checkedSub c 1 = some (c - 1) := by
    simp only [checkedSub, if_pos (by omega : 1 ≤ c)]
  have hne : ¬ (c - 1 = 0) := by omega
  have hsw : swapRemove (lookupD a.allocated q []) 0 = [] := by
    rw [hql]
    rfl
  have hc' : (a.refs[e.rid]?).getD 0 = c := by
    simpa [List.getD] using hc
  simp [free, free_inner, hq, hfind, hc', hsub, hne, hsw]

lemma free_step_last (a : Allocator) (q s : Nat) (e : MemRange)
    (hq : containsKey a.allocated q = true)
    (hql : lookupD a.allocated q [] = [e])
    (hs : e.range.start = s)
    (hc : a.refs.getD e.rid 0 = 1) :
    ∃ fb a', free a q s = some (.ok (fb, a')) ∧
      ((∃ n, fb = .Free n) ∨ (∃ n, fb = .FreeMerge n)) := by
  have hfind : enumFind (fun x => decide (x.range.start = s)) 0
      (lookupD a.allocated q []) = some (0, e) := by
    rw [hql]
    simp [enumFind, hs]
  have hsub : checkedSub (1 : Nat) 1 = some 0 := by decide
  have hc' : (a.refs[e.rid]?).getD 0 = 1 := by
    simpa [List.getD] using hc
  cases hind : dedupAdj (mergeScan 0 0
      (sortByStart (a.free ++ [(e.range.stop - e.range.start + 1, e.range)]))) with
  | nil =>
    exact ⟨_, _,
      by simp [free, free_inner, hq, hfind, hc', hsub, hind]; exact ⟨rfl, rfl⟩,
      Or.inl ⟨_, rfl⟩⟩
  | cons i0 rest =>
    exact ⟨_, _,
      by simp [free, free_inner, hq, hfind, hc', hsub, hind]; exact ⟨rfl, rfl⟩,
      Or.inr ⟨_, rfl⟩⟩

lemma shares_fold (p s : Nat) (e : MemRange) (hs : e.range.start = s) :
    ∀ (todo : List Nat) (a : Allocator) (c : Nat),
      todo.Nodup →
      containsKey a.allocated p = true →
      lookupD a.allocated p [] = [e] →
      e.rid < a.refs.length →
      a.refs.getD e.rid 0 = c →
      (∀ q ∈ todo, q ≠ p ∧ containsKey a.allocated q = true ∧
        lookupD a.allocated q [] = []) →
      containsKey (afterShares a p s todo).allocated p = true ∧
      lookupD (afterShares a p s todo).allocated p [] = [e] ∧
      e.rid < (afterShares a p s todo).refs.length ∧
      (afterShares a p s todo).refs.getD e.rid 0 = c + todo.length ∧
      (afterShares a p s todo).heap = a.heap ∧
      (afterShares a p s todo).free = a.free ∧
      (∀ q ∈ todo, containsKey (afterShares a p s todo).allocated q = true ∧
        lookupD (afterShares a p s todo).allocated q [] = [e]) ∧
      (∀ key, key ∉ todo →
        lookupD (afterShares a p s todo).allocated key [] = lookupD a.allocated key [] ∧
        containsKey (afterShares a p s todo).allocated key = containsKey a.allocated key) := by
  intro todo
  induction todo with
  | nil =>
    intro a c _ hp hpl hrid hc _
    exact ⟨hp, hpl, hrid, by simpa using hc, rfl, rfl, by simp, fun key _ => ⟨rfl, rfl⟩⟩
  | cons q rest ih =>
    intro a c hnd hp hpl hrid hc hq
    obtain ⟨hnotin, hnd'⟩ := List.nodup_cons.mp hnd
    obtain ⟨hqp, hqc, hql⟩ := hq q (List.mem_cons_self q rest)
    have hc' : (a.refs[e.rid]?).getD 0 = c := by
      simpa [List.getD] using hc
    have ha1 : stepShare p s a q
        = { a with refs := a.refs.set e.rid (c + 1),
                   allocated := entrySet a.allocated q [e] } := by
      simp [stepShare, share_step a p q s e hp hpl hs hqc, hql, hc']
    have hfold : afterShares a p s (q :: rest)
        = afterShares { a with refs := a.refs.set e.rid (c + 1),
                               allocated := entrySet a.allocated q [e] } p s rest := by
      rw [afterShares, List.foldl_cons, ha1]
      rfl
    have hp1 : containsKey (entrySet a.allocated q [e]) p = true :=
      (containsKey_entrySet_of_contains a.allocated q p [e] hqc).trans hp
    have hpl1 : lookupD (entrySet a.allocated q [e]) p [] = [e] :=
      (lookupD_entrySet_ne a.allocated [e] [] (Ne.symm hqp)).trans hpl
    have hrid1 : e.rid < (a.refs.set e.rid (c + 1)).length := by
      simpa using hrid
    have hc1 : (a.refs.set e.rid (c + 1)).getD e.rid 0 = c + 1 :=
      getD_set_self a.refs e.rid (c + 1) 0 hrid
    have hq1 : ∀ q' ∈ rest, q' ≠ p ∧
        containsKey (entrySet a.allocated q [e]) q' = true ∧
        lookupD (entrySet a.allocated q [e]) q' [] = [] := by
      intro q' hmem
      obtain ⟨h1, h2, h3⟩ := hq q' (List.mem_cons_of_mem q hmem)
      have hne : q' ≠ q := fun hx => hnotin (hx ▸ hmem)
      exact ⟨h1, (containsKey_entrySet_of_contains a.allocated q q' [e] hqc).trans h2,
        (lookupD_entrySet_ne a.allocated [e] [] hne).trans h3⟩
    obtain ⟨ih1, ih2, ih3, ih4, ih5, ih6, ih7, ih8⟩ :=
      ih { a with refs := a.refs.set e.rid (c + 1),
                  allocated := entrySet a.allocated q [e] } (c + 1)
        hnd' hp1 hpl1 hrid1 hc1 hq1
    rw [hfold]
    refine ⟨ih1, ih2, ih3, ?_, ?_, ?_, ?_, ?_⟩
    · rw [ih4]
      simp only [List.length_cons]
      omega
    · rw [ih5]
    · rw [ih6]
    · intro q' hmem
      rcases List.mem_cons.mp hmem with rfl | hmem'
      · obtain ⟨hl, hck⟩ := ih8 q' hnotin
        constructor
        · rw [hck, containsKey_entrySet]
          simp
        · rw [hl, lookupD_entrySet_self]
      · exact ih7 q' hmem'
    · intro key hkey
      have hkq : key ≠ q := fun hx => hkey (hx ▸ List.mem_cons_self q rest)
      have hkrest : key ∉ rest := fun hx => hkey (List.mem_cons_of_mem q hx)
      obtain ⟨hl, hck⟩ := ih8 key hkrest
      constructor
      · rw [hl, lookupD_entrySet_ne a.allocated [e] [] hkq]
      · rw [hck, containsKey_entrySet]
        simp [hkq]

lemma frees_fold (p s : Nat) (e : MemRange) (hs : e.range.start = s) :
    ∀ (rest : List Nat) (a : Allocator),
      rest.Nodup →
      containsKey a.allocated p = true →
      lookupD a.allocated p [] = [e] →
      e.rid < a.refs.length →
      a.refs.getD e.rid 0 = 1 + rest.length →
      (∀ q ∈ rest, q ≠ p ∧ containsKey a.allocated q = true ∧
        lookupD a.allocated q [] = [e]) →
      (∀ k (hk : k < rest.length),
        free (afterFrees a s (rest.take k)) (rest.get ⟨k, hk⟩) s
          = some (.ok (.RefcountDecreased, afterFrees a s (rest.take (k + 1)))) ∧
        (afterFrees a s (rest.take (k + 1))).heap = a.heap ∧
        (afterFrees a s (rest.take (k + 1))).free = a.free) ∧
      (containsKey (afterFrees a s rest).allocated p = true ∧
       lookupD (afterFrees a s rest).allocated p [] = [e] ∧
       e.rid < (afterFrees a s rest).refs.length ∧
       (afterFrees a s rest).refs.getD e.rid 0 = 1 ∧
       (afterFrees a s rest).heap = a.heap ∧
       (afterFrees a s rest).free = a.free) := by
  intro rest
  induction rest with
  | nil =>
    intro a _ hp hpl hrid hc _
    exact ⟨fun k hk => absurd hk (by simp), hp, hpl, hrid, by simpa using hc, rfl, rfl⟩
  | cons q rest' ih =>
    intro a hnd hp hpl hrid hc hq
    obtain ⟨hnotin, hnd'⟩ := List.nodup_cons.mp hnd
    obtain ⟨hqp, hqc, hql⟩ := hq q (List.mem_cons_self q rest')
    have hge2 : 2 ≤ 1 + (q :: rest').length := by
      simp only [List.length_cons]
      omega
    have hfree := free_step_decr a q s e (1 + (q :: rest').length) hqc hql hs hc hge2
    have hlen : 1 + (q :: rest').length - 1 = 1 + rest'.length := by
      simp only [List.length_cons]
      omega
    rw [hlen] at hfree
    have ha1 : stepFree s a q
        = { a with refs := a.refs.set e.rid (1 + rest'.length),
                   allocated := entrySet a.allocated q [] } := by
      simp [stepFree, hfree]
    have hfold : afterFrees a s (q :: rest')
        = afterFrees { a with refs := a.refs.set e.rid (1 + rest'.length),
                              allocated := entrySet a.allocated q [] } s rest' := by
      rw [afterFrees, List.foldl_cons, ha1]
      rfl
    have hp1 : containsKey (entrySet a.allocated q []) p = true :=
      (containsKey_entrySet_of_contains a.allocated q p [] hqc).trans hp
    have hpl1 : lookupD (entrySet a.allocated q []) p [] = [e] :=
      (lookupD_entrySet_ne a.allocated [] [] (Ne.symm hqp)).trans hpl
    have hrid1 : e.rid < (a.refs.set e.rid (1 + rest'.length)).length := by
      simpa using hrid
    have hc1 : (a.refs.set e.rid (1 + rest'.length)).getD e.rid 0 = 1 + rest'.length :=
      getD_set_self a.refs e.rid (1 + rest'.length) 0 hrid
    have hq1 : ∀ q' ∈ rest', q' ≠ p ∧
        containsKey (entrySet a.allocated q []) q' = true ∧
        lookupD (entrySet a.allocated q []) q' [] = [e] := by
      intro q' hmem
      obtain ⟨h1, h2, h3⟩ := hq q' (List.mem_cons_of_mem q hmem)
      have hne : q' ≠ q := fun hx => hnotin (hx ▸ hmem)
      exact ⟨h1, (containsKey_entrySet_of_contains a.allocated q q' [] hqc).trans h2,
        (lookupD_entrySet_ne a.allocated [] [] hne).trans h3⟩
    obtain ⟨ihk, ihfin⟩ :=
      ih { a with refs := a.refs.set e.rid (1 + rest'.length),
                  allocated := entrySet a.allocated q [] }
        hnd' hp1 hpl1 hrid1 hc1 hq1
    have htake1 : afterFrees a s ((q :: rest').take 1)
        = { a with refs := a.refs.set e.rid (1 + rest'.length),
                   allocated := entrySet a.allocated q [] } := by
      show stepFree s a q = _
      exact ha1
    constructor
    · intro k hk
      cases k with
      | zero =>
        refine ⟨?_, ?_, ?_⟩
        · show free a q s = some (.ok (.RefcountDecreased, afterFrees a s ((q :: rest').take 1)))
          rw [htake1]
          exact hfree
        · rw [htake1]
        · rw [htake1]
      | succ k' =>
        have hk' : k' < rest'.length := by
          simpa [Nat.succ_lt_succ_iff] using hk
        have htake : ∀ n, afterFrees a s ((q :: rest').take (n + 1))
            = afterFrees { a with refs := a.refs.set e.rid (1 + rest'.length),
                                  allocated := entrySet a.allocated q [] } s (rest'.take n) := by
          intro n
          show afterFrees (stepFree s a q) s (rest'.take n) = _
          rw [ha1]
        obtain ⟨g1, g2, g3⟩ := ihk k' hk'
        refine ⟨?_, ?_, ?_⟩
        · rw [htake k', htake (k' + 1)]
          exact g1
        · rw [htake (k' + 1)]
          exact g2
        · rw [htake (k' + 1)]
          exact g3
    · rw [hfold]
      exact ⟨ihfin.1, ihfin.2.1, ihfin.2.2.1, ihfin.2.2.2.1,
        ihfin.2.2.2.2.1, ihfin.2.2.2.2.2⟩

/-- C6: starting from any state in which process `p` holds exactly the
record `e` (shared counter value 1, start offset `s`) and the pairwise
distinct processes `qs` are registered with empty ledgers, sharing the
record once with each member of `qs` and then freeing it once by each
holder gives: each of the first `N = |qs|` frees returns
`RefcountDecreased` and leaves the arena and the free list unchanged,
while the final `(N+1)`-th free by `p` returns the block-became-free
outcome (`Free` or `FreeMerge`). -/
theorem share_refcount_protocol (a : Allocator) (p s : Nat) (e : MemRange) (qs : List Nat)
    (hnd : qs.Nodup)
    (hp : containsKey a.allocated p = true)
    (hpl : lookupD a.allocated p [] = [e])
    (hs : e.range.start = s)
    (hrid : e.rid < a.refs.length)
    (hc : a.refs.getD e.rid 0 = 1)
    (hq : ∀ q ∈ qs, q ≠ p ∧ containsKey a.allocated q = true ∧
      lookupD a.allocated q [] = []) :
    (afterShares a p s qs).heap = a.heap ∧
    (afterShares a p s qs).free = a.free ∧
    (∀ k (hk : k < qs.length),
      free (afterFrees (afterShares a p s qs) s (qs.take k)) (qs.get ⟨k, hk⟩) s
        = some (.ok (.RefcountDecreased,
            afterFrees (afterShares a p s qs) s (qs.take (k + 1)))) ∧
      (afterFrees (afterShares a p s qs) s (qs.take (k + 1))).heap = a.heap ∧
      (afterFrees (afterShares a p s qs) s (qs.take (k + 1))).free = a.free) ∧
    (∃ fb a', free (afterFrees (afterShares a p s qs) s qs) p s = some (.ok (fb, a')) ∧
      ((∃ n, fb = .Free n) ∨ (∃ n, fb = .FreeMerge n))) := by
  obtain ⟨s1, s2, s3, s4, s5, s6, s7, _⟩ :=
    shares_fold p s e hs qs a 1 hnd hp hpl hrid hc hq
  have hq' : ∀ q ∈ qs, q ≠ p ∧
      containsKey (afterShares a p s qs).allocated q = true ∧
      lookupD (afterShares a p s qs).allocated q [] = [e] := by
    intro q hmem
    exact ⟨(hq q hmem).1, (s7 q hmem).1, (s7 q hmem).2⟩
  obtain ⟨fk, ffin⟩ := frees_fold p s e hs qs (afterShares a p s qs) hnd s1 s2 s3 s4 hq'
  refine ⟨s5, s6, ?_, ?_⟩
  · intro k hk
    obtain ⟨g1, g2, g3⟩ := fk k hk
    exact ⟨g1, g2.trans s5, g3.trans s6⟩
  · exact free_step_last (afterFrees (afterShares a p s qs) s qs) p s e
      ffin.1 ffin.2.1 hs ffin.2.2.2.1

/-- C6 witness: in `exW6` (process 0 owning `[0,3]` with counter 1;
processes 1 and 2 registered and empty), sharing to processes 1 and 2 and
then freeing by 1, by 2, and finally by 0 gives `RefcountDecreased` with
untouched arena and free list for the first two frees, and a
block-became-free outcome for the last free. -/
theorem share_refcount_protocol_witness :
    (free (afterShares exW6 0 0 [1, 2]) 1 0
      = some (.ok (.RefcountDecreased, afterFrees (afterShares exW6 0 0 [1, 2]) 0 [1])) ∧
     (afterFrees (afterShares exW6 0 0 [1, 2]) 0 [1]).heap = exW6.heap ∧
     (afterFrees (afterShares exW6 0 0 [1, 2]) 0 [1]).free = exW6.free) ∧
    (∃ fb a', free (afterFrees (afterShares exW6 0 0 [1, 2]) 0 [1, 2]) 0 0
      = some (.ok (fb, a')) ∧ ((∃ n, fb = .Free n) ∨ (∃ n, fb = .FreeMerge n))) := by
  have h := share_refcount_protocol exW6 0 0 ⟨0, ⟨0, 3⟩⟩ [1, 2]
    (by decide) (by decide) (by decide) (by decide) (by decide) (by decide) (by decide)
  exact ⟨h.2.2.1 0 (by decide), h.2.2.2⟩

end Lilac
